import Mathlib

/-!
Verification of the numpy neural-network implementation (src/Numpy_NN.py).

Numpy arrays of float64 are modelled as matrices over the reals: a record
holding the declared row and column counts together with a total entry
function.  All array operations of the source (dot products, broadcasts,
elementwise maps, reductions) only ever read entries inside the declared
bounds, so entries outside them are irrelevant junk, exactly as the memory
beyond a numpy view is.
-/

namespace NumpyNN

/-- Model of a two-dimensional numpy array: declared shape plus a total
entry function over the reals. -/
structure M where
  rows : ℕ
  cols : ℕ
  entry : ℕ → ℕ → ℝ

/-- Default array used for out-of-range list lookups (never hit under the
shape hypotheses of the theorems below). -/
noncomputable def dfltM : M := ⟨0, 0, fun _ _ => 0⟩

/-- Transpose, as in `A.T`. -/
noncomputable def Mt (A : M) : M := ⟨A.cols, A.rows, fun i j => A.entry j i⟩

/-- Matrix product, as in `np.dot`: contraction over the left operand's
column count. -/
noncomputable def matMul (A B : M) : M :=
  ⟨A.rows, B.cols, fun i j => ∑ t in Finset.range A.cols, A.entry i t * B.entry t j⟩

/-- Source `linear_forward(A, W, b)`: `Z = np.dot(W, A) + b` with the bias
column broadcast over the samples; returns `Z` and the linear cache
`(A, W, b)`. -/
noncomputable def linear_forward (A W b : M) : M × (M × M × M) :=
  (⟨W.rows, A.cols,
    fun i j => (∑ t in Finset.range W.cols, W.entry i t * A.entry t j) + b.entry i 0⟩,
   (A, W, b))

/-- Source `softmax(Z)` forward value: column-wise
`np.exp(Z) / np.sum(np.exp(Z), axis=0)`. -/
noncomputable def softmax (Z : M) : M :=
  ⟨Z.rows, Z.cols,
   fun i j => Real.exp (Z.entry i j) / ∑ k in Finset.range Z.rows, Real.exp (Z.entry k j)⟩

/-- Source `relu(Z)` forward value: `np.maximum(0, Z)`. -/
noncomputable def relu (Z : M) : M :=
  ⟨Z.rows, Z.cols, fun i j => max 0 (Z.entry i j)⟩

/-- Activation tag handed to `linear_activation_forward`, standing for the
source's two accepted strings. -/
inductive Act where
  | reluA : Act
  | softA : Act

/-- Source `linear_activation_forward`: linear step followed by the chosen
activation; the cache pairs the linear cache `(A_prev, W, b)` with the
activation cache `Z`. -/
noncomputable def linear_activation_forward (A_prev W b : M) (act : Act) :
    M × ((M × M × M) × M) :=
  let zc := linear_forward A_prev W b
  match act with
  | Act.reluA => (relu zc.1, (zc.2, zc.1))
  | Act.softA => (softmax zc.1, (zc.2, zc.1))

/-- Mean along axis 0 of an array, as in `np.mean(B, axis=0)`. -/
noncomputable def npMean0 (B : M) : ℕ → ℝ :=
  fun j => (∑ i in Finset.range B.rows, B.entry i j) / B.rows

/-- Population standard deviation along axis 0, as in `np.std(B, axis=0)`
(numpy's default `ddof = 0`). -/
noncomputable def npStd0 (B : M) : ℕ → ℝ :=
  fun j => Real.sqrt ((∑ i in Finset.range B.rows, (B.entry i j - npMean0 B j) ^ 2) / B.rows)

/-- Source `batchnorm(A)`: take `A.T`, subtract the per-column means and
divide by the per-column population standard deviations plus `0.0001`,
then transpose back. -/
noncomputable def batchnorm (A : M) : M :=
  let T := Mt A
  Mt ⟨T.rows, T.cols, fun i j => (T.entry i j - npMean0 T j) / (npStd0 T j + 0.0001)⟩

/-- Mean of row `i` of `A` across the batch (column) dimension. -/
noncomputable def rowMean (A : M) (i : ℕ) : ℝ :=
  (∑ j in Finset.range A.cols, A.entry i j) / A.cols

/-- Population standard deviation of row `i` of `A` across the batch
(column) dimension. -/
noncomputable def rowStd (A : M) (i : ℕ) : ℝ :=
  Real.sqrt ((∑ j in Finset.range A.cols, (A.entry i j - rowMean A i) ^ 2) / A.cols)

/-- Clipping of a scalar into `[lo, hi]`, as `np.clip` acts entrywise when
`lo ≤ hi`. -/
noncomputable def npclip (x lo hi : ℝ) : ℝ := min (max x lo) hi

/-- Source `compute_cost(AL, Y)`: clip the predictions into
`[1e-10, 1 - 1e-10]` and return `-(1/m) * np.sum(Y * np.log(pred))` with
`m` the number of sample columns. -/
noncomputable def compute_cost (AL Y : M) : ℝ :=
  -(1 / (Y.cols : ℝ)) *
    ∑ i in Finset.range Y.rows, ∑ j in Finset.range Y.cols,
      Y.entry i j * Real.log (npclip (AL.entry i j) 1e-10 (1 - 1e-10))

/-- Hidden-layer loop of `L_model_forward`: for each layer run
linear-then-relu, then batch-normalize the activation when the flag is
set, collecting the caches in layer order. -/
noncomputable def reluChain (bn : Bool) : M → List (M × M) → M × List ((M × M × M) × M)
  | A, [] => (A, [])
  | A, p :: ps =>
      let r := linear_activation_forward A p.1 p.2 Act.reluA
      let A2 := if bn then batchnorm r.1 else r.1
      let rest := reluChain bn A2 ps
      (rest.1, r.2 :: rest.2)

/-- Source `L_model_forward(X, W_b_dict, use_batchnorm)`: relu layers for
all but the last parameter pair, then the softmax layer.  When the network
has fewer than two weighted layers the relu loop body never runs, the
Python loop variable `l` is left unbound, and line 116 raises
`UnboundLocalError`; that crash is modelled as `none`. -/
noncomputable def L_model_forward (X : M) (ps : List (M × M)) (bn : Bool) :
    Option (M × List ((M × M × M) × M)) :=
  if ps.length < 2 then none
  else
    let r := reluChain bn X ps.dropLast
    let p := ps.getLastD (dfltM, dfltM)
    let f := linear_activation_forward r.1 p.1 p.2 Act.softA
    some (f.1, r.2 ++ [f.2])

/-- Source `linear_backward(dZ, cache)`: with `m = A_prev.shape[1]`,
`dA_prev = np.dot(W.T, dZ)`, `dW = 1/m * np.dot(dZ, A_prev.T)`,
`db = 1/m * np.sum(dZ, axis=1, keepdims=True)`. -/
noncomputable def linear_backward (dZ : M) (cache : M × M × M) : M × M × M :=
  let A_prev := cache.1
  let W := cache.2.1
  let m : ℝ := A_prev.cols
  let dW0 := matMul dZ (Mt A_prev)
  (matMul (Mt W) dZ,
   ⟨dW0.rows, dW0.cols, fun i j => 1 / m * dW0.entry i j⟩,
   ⟨dZ.rows, 1, fun i _ => 1 / m * ∑ j in Finset.range dZ.cols, dZ.entry i j⟩)

/-- Source `relu_backward(dA, activation_cache)`: `dA[cache <= 0] = 0`
(in-place masking, modelled purely). -/
noncomputable def relu_backward (dA Zc : M) : M :=
  ⟨dA.rows, dA.cols, fun i j => if Zc.entry i j ≤ 0 then 0 else dA.entry i j⟩

/-- Source `softmax_backward(dA, activation_cache)`: recompute
`A = np.exp(Z) / np.sum(np.exp(Z), axis=0)` from the cached `Z` and return
`dZ = dA * A * (1 - A)` elementwise. -/
noncomputable def softmax_backward (dA Zc : M) : M :=
  let T : M := ⟨Zc.rows, Zc.cols, fun i j => Real.exp (Zc.entry i j)⟩
  let A : M := ⟨Zc.rows, Zc.cols,
    fun i j => T.entry i j / ∑ k in Finset.range Zc.rows, T.entry k j⟩
  ⟨dA.rows, dA.cols, fun i j => dA.entry i j * A.entry i j * (1 - A.entry i j)⟩

/-- Source `linear_activation_backward(dA, cache, activation)`. -/
noncomputable def linear_activation_backward (dA : M) (cache : (M × M × M) × M)
    (act : Act) : M × M × M :=
  let dZ := match act with
    | Act.reluA => relu_backward dA cache.2
    | Act.softA => softmax_backward dA cache.2
  linear_backward dZ cache.1

/-- Initial output gradient of `L_model_backward`:
`dAL = -(np.divide(Y, AL) - np.divide(1 - Y, 1 - AL))`. -/
noncomputable def initGrad (Y AL : M) : M :=
  ⟨AL.rows, AL.cols,
   fun i j => -(Y.entry i j / AL.entry i j - (1 - Y.entry i j) / (1 - AL.entry i j))⟩

/-- Relu part of the backward loop of `L_model_backward`, walking the
caches from the last hidden layer down to the first; each step feeds the
produced `dA_prev` into the next. -/
noncomputable def backChain (dA : M) : List ((M × M × M) × M) → List (M × M × M)
  | [] => []
  | c :: cs =>
      let t := linear_activation_backward dA c Act.reluA
      t :: backChain t.1 cs

/-- Source `L_model_backward(AL, Y, caches)`: initialize `dAL`, run the
softmax backward step on the last cache, then the relu backward steps on
the remaining caches in reverse; the result list holds, in layer order,
the triple `(dA_l, dW_l, db_l)` keyed `l = 1..L" in the source dict. -/
noncomputable def L_model_backward (AL Y : M) (caches : List ((M × M × M) × M)) :
    List (M × M × M) :=
  match caches.reverse with
  | [] => []
  | clast :: rest =>
      let t := linear_activation_backward (initGrad Y AL) clast Act.softA
      (t :: backChain t.1 rest).reverse

/-- Source `update_parameters(W_b_dict, grads, learning_rate, L2_norm)`:
per layer, `W ← W - lr * (dW + lr * W)` when the L2 flag is set, else
`W ← W - lr * dW`; always `b ← b - lr * db`. -/
noncomputable def update_parameters (ps : List (M × M)) (gs : List (M × M × M))
    (lr : ℝ) (l2 : Bool) : List (M × M) :=
  List.zipWith
    (fun p g =>
      (if l2 then
        ⟨p.1.rows, p.1.cols,
          fun i j => p.1.entry i j - lr * (g.2.1.entry i j + lr * p.1.entry i j)⟩
       else
        ⟨p.1.rows, p.1.cols, fun i j => p.1.entry i j - lr * g.2.1.entry i j⟩,
       ⟨p.2.rows, p.2.cols, fun i j => p.2.entry i j - lr * g.2.2.entry i j⟩))
    ps gs

/-- Weight matrix built by `initialize_parameters` for layer `i`:
`np.random.uniform(-(1/sqrt(n_i)), 1/sqrt(n_i), (n_i, n_prev))`, with the
uniform draw modelled as `low + u * (high - low)` from a raw sample stream
`u` taking values in `[0, 1)`. -/
noncomputable def mkW (u : ℕ → ℕ → ℕ → ℝ) (dims : List ℕ) (i : ℕ) : M :=
  let ni := dims.getD i 0
  let lo : ℝ := -(1 / Real.sqrt ni)
  let hi : ℝ := 1 / Real.sqrt ni
  ⟨ni, dims.getD (i - 1) 0, fun r c => lo + u i r c * (hi - lo)⟩

/-- Bias vector built by `initialize_parameters` for layer `i`:
`np.zeros((n_i, 1))`. -/
noncomputable def mkB (dims : List ℕ) (i : ℕ) : M :=
  ⟨dims.getD i 0, 1, fun _ _ => 0⟩

/-- Loop body of `initialize_parameters` over the list of layer indices;
the source's two shape assertions are modelled as guards that return
`none` on failure. -/
noncomputable def initLoop (u : ℕ → ℕ → ℕ → ℝ) (dims : List ℕ) :
    List ℕ → Option (List (M × M))
  | [] => some []
  | i :: rest =>
      if (mkW u dims i).rows = dims.getD i 0 ∧ (mkW u dims i).cols = dims.getD (i - 1) 0 ∧
         (mkB dims i).rows = dims.getD i 0 ∧ (mkB dims i).cols = 1 then
        match initLoop u dims rest with
        | some l => some ((mkW u dims i, mkB dims i) :: l)
        | none => none
      else none

/-- Source `initialize_parameters(layers_dim)`: loop `i` over
`range(1, len(layers_dim))`, building each weight uniformly in
`[-1/sqrt(n_i), 1/sqrt(n_i))` and each bias as zeros, asserting the
shapes. -/
noncomputable def initialize_parameters (u : ℕ → ℕ → ℕ → ℝ) (dims : List ℕ) :
    Option (List (M × M)) :=
  initLoop u dims ((List.range (dims.length - 1)).map (· + 1))

/-- Early-stopping epoch loop of `L_layer_model` (source lines 294 and
310-329), with the per-epoch validation accuracy abstracted as the
sequence `acc` (in the source it is `predict` on the held-out split; the
comparisons are modelled over the rationals, on which the decimal
literals involved are exact).  The state is the remaining iteration
budget, the zero-based epoch index and the previous accuracy
(initially 0).  Each epoch trains its batches, then stops — performing no
further training — as soon as `acc e - prev < 1e-8`; the returned value
counts the epochs run before convergence, `none` meaning the budget was
exhausted first. -/
def epochLoop (acc : ℕ → ℚ) : ℕ → ℕ → ℚ → Option ℕ
  | 0, _, _ => none
  | n + 1, e, prev =>
      if acc e - prev < 1e-8 then some (e + 1)
      else epochLoop acc n (e + 1) (acc e)

/-- Uniform prediction matrix: every entry `1/k`. -/
noncomputable def uniformM (k m : ℕ) : M := ⟨k, m, fun _ _ => (k : ℝ)⁻¹⟩

/-- Activation fed into hidden layer `k` (zero-based) of the forward
pass: the input for `k = 0`, and otherwise the previous layer's relu
output, batch-normalized when the flag is set. -/
noncomputable def layerInput (bn : Bool) : M → List (M × M) → ℕ → M
  | X, _, 0 => X
  | X, [], _ + 1 => X
  | X, p :: ps, k + 1 =>
      let r := linear_activation_forward X p.1 p.2 Act.reluA
      layerInput bn (if bn then batchnorm r.1 else r.1) ps k

lemma zipWith_getD {α β γ : Type} (f : α → β → γ) :
    ∀ (as : List α) (bs : List β) (i : ℕ) (d : γ) (da : α) (db : β),
      i < as.length → i < bs.length →
      (List.zipWith f as bs).getD i d = f (as.getD i da) (bs.getD i db) := by
  intro as
  induction as with
  | nil => intro bs i d da db h _; simp at h
  | cons a as ih =>
      intro bs i d da db ha hb
      cases bs with
      | nil => simp at hb
      | cons b bs =>
          cases i with
          | zero => simp [List.zipWith]
          | succ i =>
              simp only [List.zipWith, List.getD_cons_succ]
              exact ih bs i d da db (by simpa using ha) (by simpa using hb)

lemma initLoop_always (u : ℕ → ℕ → ℕ → ℝ) (dims : List ℕ) :
    ∀ idxs : List ℕ,
      initLoop u dims idxs = some (idxs.map (fun i => (mkW u dims i, mkB dims i))) := by
  intro idxs
  induction idxs with
  | nil => rfl
  | cons i rest ih =>
      rw [initLoop, if_pos ⟨rfl, rfl, rfl, rfl⟩, ih]
      rfl

lemma epochLoop_lt (acc : ℕ → ℚ) :
    ∀ n e prev j, epochLoop acc n e prev = some j → e < j := by
  intro n
  induction n with
  | zero => intro e prev j h; simp [epochLoop] at h
  | succ n ih =>
      intro e prev j h
      rw [epochLoop] at h
      by_cases hc : acc e - prev < 1e-8
      · rw [if_pos hc] at h
        obtain rfl : e + 1 = j := by injection h
        omega
      · rw [if_neg hc] at h
        have := ih (e + 1) (acc e) j h
        omega

/-- C1: for every output `AL` and one-hot label matrix `Y` of the same
shape, the backward pass initializes the output gradient as
`dAL = -(Y/AL - (1-Y)/(1-AL))` elementwise, and the softmax backward step
returns `dZ = dAL ⊙ A ⊙ (1-A)` where `A` is the column-wise softmax
recomputed from the cached pre-activation `Z` (the surrogate formula, not
the true softmax Jacobian-vector product): the last entry of the gradient
list is the last layer's linear backward applied to exactly
`softmax_backward (initGrad Y AL) Z`, and the two formulas hold entrywise. -/
theorem c1_output_gradient_and_softmax_backward (AL Y dA Z : M) (lc : M × M × M)
    (cs : List ((M × M × M) × M)) :
    (L_model_backward AL Y (cs ++ [(lc, Z)])).getLast? =
      some (linear_backward (softmax_backward (initGrad Y AL) Z) lc) ∧
    (∀ i j, (initGrad Y AL).entry i j =
      -(Y.entry i j / AL.entry i j - (1 - Y.entry i j) / (1 - AL.entry i j))) ∧
    (∀ i j, (softmax_backward dA Z).entry i j =
      dA.entry i j * (softmax Z).entry i j * (1 - (softmax Z).entry i j)) := by
  refine ⟨?_, fun i j => rfl, fun i j => rfl⟩
  have hrev : (cs ++ [(lc, Z)]).reverse = (lc, Z) :: cs.reverse := by simp
  rw [L_model_backward, hrev]
  rw [List.getLast?_reverse]
  rfl

/-- C2: for every gradient `dZ` and forward cache `(A_prev, W, b)` with
`m` the sample count (column count of `A_prev`), `linear_backward` returns
`dA_prev = Wᵗ·dZ`, `dW = (1/m)·dZ·A_prevᵗ` and `db = (1/m)·row-sum(dZ)`,
shaped exactly like `A_prev`, `W` and `b` respectively. -/
theorem c2_linear_backward (dZ A_prev W b : M)
    (hW : W.cols = A_prev.rows) (hr : dZ.rows = W.rows) (hc : dZ.cols = A_prev.cols)
    (hbr : b.rows = W.rows) (hbc : b.cols = 1) :
    ((linear_backward dZ (A_prev, W, b)).1.rows = A_prev.rows ∧
     (linear_backward dZ (A_prev, W, b)).1.cols = A_prev.cols ∧
     (linear_backward dZ (A_prev, W, b)).2.1.rows = W.rows ∧
     (linear_backward dZ (A_prev, W, b)).2.1.cols = W.cols ∧
     (linear_backward dZ (A_prev, W, b)).2.2.rows = b.rows ∧
     (linear_backward dZ (A_prev, W, b)).2.2.cols = b.cols) ∧
    (∀ i j, (linear_backward dZ (A_prev, W, b)).1.entry i j =
      ∑ t in Finset.range W.rows, W.entry t i * dZ.entry t j) ∧
    (∀ i j, (linear_backward dZ (A_prev, W, b)).2.1.entry i j =
      1 / (A_prev.cols : ℝ) * ∑ t in Finset.range dZ.cols, dZ.entry i t * A_prev.entry j t) ∧
    (∀ i, (linear_backward dZ (A_prev, W, b)).2.2.entry i 0 =
      1 / (A_prev.cols : ℝ) * ∑ j in Finset.range dZ.cols, dZ.entry i j) := by
  refine ⟨⟨?_, ?_, ?_, ?_, ?_, ?_⟩, fun i j => rfl, fun i j => rfl, fun i => rfl⟩
  · simp [linear_backward, matMul, Mt, hW]
  · simp [linear_backward, matMul, Mt, hc]
  · simp [linear_backward, matMul, Mt, hr]
  · simp [linear_backward, matMul, Mt, hW]
  · simp [linear_backward, hr, hbr]
  · simp [linear_backward, hbc]

/-- Witness for C2 at a concrete cache of shapes (2,3), (1,2), (1,1) with
dZ of shape (1,3). -/
theorem c2_linear_backward_witness :
    ((linear_backward ⟨1, 3, fun _ j => (j : ℝ)⟩
        (⟨2, 3, fun i j => (i : ℝ) + j⟩, ⟨1, 2, fun _ j => (j : ℝ) + 1⟩,
         ⟨1, 1, fun _ _ => 0⟩)).1.rows = 2) ∧
    ((linear_backward ⟨1, 3, fun _ j => (j : ℝ)⟩
        (⟨2, 3, fun i j => (i : ℝ) + j⟩, ⟨1, 2, fun _ j => (j : ℝ) + 1⟩,
         ⟨1, 1, fun _ _ => 0⟩)).2.2.entry 0 0 =
      1 / ((3 : ℕ) : ℝ) * ∑ j in Finset.range 3, ((⟨1, 3, fun _ j => (j : ℝ)⟩ : M).entry 0 j)) := by
  have h := c2_linear_backward ⟨1, 3, fun _ j => (j : ℝ)⟩
    ⟨2, 3, fun i j => (i : ℝ) + j⟩ ⟨1, 2, fun _ j => (j : ℝ) + 1⟩ ⟨1, 1, fun _ _ => 0⟩
    rfl rfl rfl rfl rfl
  exact ⟨h.1.1, h.2.2.2 0⟩

/-- C3: for every gradient matrix `dA` and cached pre-activation `Z`,
`relu_backward` returns `dA` with exactly the entries at positions where
`Z ≤ 0` (boundary included) set to 0 and every other entry unchanged, at
the shape of `dA`. -/
theorem c3_relu_backward (dA Z : M) :
    (relu_backward dA Z).rows = dA.rows ∧ (relu_backward dA Z).cols = dA.cols ∧
    ∀ i j, (Z.entry i j ≤ 0 → (relu_backward dA Z).entry i j = 0) ∧
      (0 < Z.entry i j → (relu_backward dA Z).entry i j = dA.entry i j) := by
  refine ⟨rfl, rfl, fun i j => ⟨fun h => ?_, fun h => ?_⟩⟩
  · simp [relu_backward, if_pos h]
  · simp [relu_backward, if_neg (not_le.mpr h)]

/-- Witness for C3: a boundary entry (exactly 0) is zeroed, a positive
entry passes the gradient through unchanged. -/
theorem c3_relu_backward_witness :
    (relu_backward ⟨1, 2, fun _ _ => 5⟩ ⟨1, 2, fun _ j => if j = 0 then 0 else 1⟩).entry 0 0 = 0 ∧
    (relu_backward ⟨1, 2, fun _ _ => 5⟩ ⟨1, 2, fun _ j => if j = 0 then 0 else 1⟩).entry 0 1 = 5 := by
  have h := c3_relu_backward ⟨1, 2, fun _ _ => 5⟩ ⟨1, 2, fun _ j => if j = 0 then 0 else 1⟩
  exact ⟨(h.2.2 0 0).1 (by norm_num), (h.2.2 0 1).2 (by norm_num)⟩

/-- C5: after every epoch the trainer compares the current validation
accuracy with the previous epoch's and transitions to CONVERGED (no
further training) exactly when the difference is below `1e-8`, including
when the accuracy decreases; on the synthetic accuracy sequence
`[0.10, 0.50, 0.50000000005]` (previous accuracy starting at 0) it stops
after the third epoch and never before. -/
theorem c5_converged_transition (acc : ℕ → ℚ) (N : ℕ) (hN : 3 ≤ N)
    (h0 : acc 0 = 0.10) (h1 : acc 1 = 0.50) (h2 : acc 2 = 0.50000000005) :
    epochLoop acc N 0 0 = some 3 ∧
    epochLoop acc 2 0 0 = none ∧
    (∀ n e prev, acc e ≤ prev → epochLoop acc (n + 1) e prev = some (e + 1)) ∧
    (∀ n e prev, epochLoop acc (n + 1) e prev = some (e + 1) ↔ acc e - prev < 1e-8) := by
  have hc0 : ¬(acc 0 - 0 < 1e-8) := by rw [h0]; norm_num
  have hc1 : ¬(acc 1 - acc 0 < 1e-8) := by rw [h0, h1]; norm_num
  have hc2 : acc 2 - acc 1 < 1e-8 := by rw [h1, h2]; norm_num
  refine ⟨?_, ?_, ?_, ?_⟩
  · obtain ⟨k, rfl⟩ : ∃ k, N = k + 3 := ⟨N - 3, by omega⟩
    show epochLoop acc (k + 2 + 1) 0 0 = some 3
    rw [epochLoop, if_neg hc0]
    show epochLoop acc (k + 1 + 1) 1 (acc 0) = some 3
    rw [epochLoop, if_neg hc1]
    show epochLoop acc (k + 1) 2 (acc 1) = some 3
    cases k with
    | zero => rw [epochLoop, if_pos hc2]
    | succ k => rw [epochLoop, if_pos hc2]
  · rw [epochLoop, if_neg hc0, epochLoop, if_neg hc1, epochLoop]
  · intro n e prev h
    have hlt : acc e - prev < 1e-8 := by
      have hle : acc e - prev ≤ 0 := by linarith
      have hp : (0 : ℚ) < 1e-8 := by norm_num
      linarith
    rw [epochLoop, if_pos hlt]
  · intro n e prev
    constructor
    · intro h
      by_contra hc
      rw [epochLoop, if_neg hc] at h
      have := epochLoop_lt acc n (e + 1) (acc e) (e + 1) h
      omega
    · intro h
      rw [epochLoop, if_pos h]

/-- Witness for C5 at the concrete synthetic sequence with a budget of 3
epochs. -/
theorem c5_converged_transition_witness :
    epochLoop (fun e => if e = 0 then 0.10 else if e = 1 then 0.50 else 0.50000000005) 3 0 0 =
      some 3 ∧
    epochLoop (fun e => if e = 0 then 0.10 else if e = 1 then 0.50 else 0.50000000005) 2 0 0 =
      none := by
  have h := c5_converged_transition
    (fun e => if e = 0 then 0.10 else if e = 1 then 0.50 else 0.50000000005) 3
    (by norm_num) (by norm_num) (by norm_num) (by norm_num)
  exact ⟨h.1, h.2.1⟩

/-- C6: the optimizer update sets each weight matrix to
`W - lr·dW` when L2 is disabled and to `W - lr·dW - lr²·W` when L2 is
enabled, while each bias becomes `b - lr·db` in both cases (the bias is
never decayed). -/
theorem c6_update_parameters (ps : List (M × M)) (gs : List (M × M × M)) (lr : ℝ)
    (i : ℕ) (hip : i < ps.length) (hig : i < gs.length) :
    (∀ r c,
      ((update_parameters ps gs lr true).getD i (dfltM, dfltM)).1.entry r c =
        (ps.getD i (dfltM, dfltM)).1.entry r c
          - lr * (gs.getD i (dfltM, dfltM, dfltM)).2.1.entry r c
          - lr ^ 2 * (ps.getD i (dfltM, dfltM)).1.entry r c) ∧
    (∀ r c,
      ((update_parameters ps gs lr false).getD i (dfltM, dfltM)).1.entry r c =
        (ps.getD i (dfltM, dfltM)).1.entry r c
          - lr * (gs.getD i (dfltM, dfltM, dfltM)).2.1.entry r c) ∧
    (∀ r c,
      ((update_parameters ps gs lr true).getD i (dfltM, dfltM)).2.entry r c =
        (ps.getD i (dfltM, dfltM)).2.entry r c
          - lr * (gs.getD i (dfltM, dfltM, dfltM)).2.2.entry r c) ∧
    (∀ r c,
      ((update_parameters ps gs lr false).getD i (dfltM, dfltM)).2.entry r c =
        (ps.getD i (dfltM, dfltM)).2.entry r c
          - lr * (gs.getD i (dfltM, dfltM, dfltM)).2.2.entry r c) := by
  have ht := zipWith_getD
    (fun (p : M × M) (g : M × M × M) =>
      ((⟨p.1.rows, p.1.cols,
          fun i j => p.1.entry i j - lr * (g.2.1.entry i j + lr * p.1.entry i j)⟩ : M),
       (⟨p.2.rows, p.2.cols, fun i j => p.2.entry i j - lr * g.2.2.entry i j⟩ : M)))
    ps gs i (dfltM, dfltM) (dfltM, dfltM) (dfltM, dfltM, dfltM) hip hig
  have hf := zipWith_getD
    (fun (p : M × M) (g : M × M × M) =>
      ((⟨p.1.rows, p.1.cols, fun i j => p.1.entry i j - lr * g.2.1.entry i j⟩ : M),
       (⟨p.2.rows, p.2.cols, fun i j => p.2.entry i j - lr * g.2.2.entry i j⟩ : M)))
    ps gs i (dfltM, dfltM) (dfltM, dfltM) (dfltM, dfltM, dfltM) hip hig
  have hdt : update_parameters ps gs lr true =
      List.zipWith
        (fun (p : M × M) (g : M × M × M) =>
          ((⟨p.1.rows, p.1.cols,
              fun i j => p.1.entry i j - lr * (g.2.1.entry i j + lr * p.1.entry i j)⟩ : M),
           (⟨p.2.rows, p.2.cols, fun i j => p.2.entry i j - lr * g.2.2.entry i j⟩ : M)))
        ps gs := rfl
  have hdf : update_parameters ps gs lr false =
      List.zipWith
        (fun (p : M × M) (g : M × M × M) =>
          ((⟨p.1.rows, p.1.cols, fun i j => p.1.entry i j - lr * g.2.1.entry i j⟩ : M),
           (⟨p.2.rows, p.2.cols, fun i j => p.2.entry i j - lr * g.2.2.entry i j⟩ : M)))
        ps gs := rfl
  refine ⟨fun r c => ?_, fun r c => ?_, fun r c => ?_, fun r c => ?_⟩
  · rw [hdt, ht]; ring
  · rw [hdf, hf]
  · rw [hdt, ht]
  · rw [hdf, hf]

/-- Witness for C6 on a one-layer parameter and gradient list. -/
theorem c6_update_parameters_witness :
    ((update_parameters [(⟨1, 1, fun _ _ => 4⟩, ⟨1, 1, fun _ _ => 2⟩)]
        [(dfltM, ⟨1, 1, fun _ _ => 6⟩, ⟨1, 1, fun _ _ => 8⟩)] 1 true).getD 0
          (dfltM, dfltM)).1.entry 0 0 =
      ([(((⟨1, 1, fun _ _ => 4⟩ : M), (⟨1, 1, fun _ _ => 2⟩ : M)))].getD 0
          (dfltM, dfltM)).1.entry 0 0
        - 1 * ([(dfltM, (⟨1, 1, fun _ _ => 6⟩ : M), (⟨1, 1, fun _ _ => 8⟩ : M))].getD 0
            (dfltM, dfltM, dfltM)).2.1.entry 0 0
        - 1 ^ 2 * ([(((⟨1, 1, fun _ _ => 4⟩ : M), (⟨1, 1, fun _ _ => 2⟩ : M)))].getD 0
            (dfltM, dfltM)).1.entry 0 0 := by
  exact (c6_update_parameters
    [(⟨1, 1, fun _ _ => 4⟩, ⟨1, 1, fun _ _ => 2⟩)]
    [(dfltM, ⟨1, 1, fun _ _ => 6⟩, ⟨1, 1, fun _ _ => 8⟩)] 1 0
    (by norm_num) (by norm_num)).1 0 0

/-- C8 (code bug in the source): for a single-layer network — a parameter
list of length 1, as produced by a two-entry `layer_spec` — the forward
pass does not complete: the Python loop `for l in range(1, 1)` never
binds `l`, so line 116 raises `UnboundLocalError`, modelled here as the
forward pass returning `none` on exactly this input. -/
theorem c8_single_layer_forward_crashes (u : ℕ → ℕ → ℕ → ℝ) (n0 n1 : ℕ) (X : M)
    (bn : Bool) :
    L_model_forward X ((initialize_parameters u [n0, n1]).getD []) bn = none := by
  have hinit : initialize_parameters u [n0, n1] =
      some [(mkW u [n0, n1] 1, mkB [n0, n1] 1)] := by
    rw [initialize_parameters, initLoop_always]
    rfl
  rw [hinit]
  rw [L_model_forward, if_pos (by norm_num)]

lemma range_map_getD {α : Type} (f : ℕ → α) (n k : ℕ) (d : α) (hk : k < n) :
    ((List.range n).map f).getD k d = f k := by
  rw [List.getD_eq_getElem?_getD, List.getElem?_map, List.getElem?_range hk]
  rfl

/-- C9 counterexample: a one-entry layer spec makes `initialize_parameters`
return an empty parameter set normally — the loop body (and with it every
shape assertion) never runs, so no shape-mismatch error is raised,
contrary to the claim. -/
theorem c9_short_spec_counterexample :
    initialize_parameters (fun _ _ _ => 0) [5] = some [] := by
  rw [initialize_parameters, initLoop_always]
  rfl

/-- C9 amended: when `layer_spec` has fewer than 2 entries,
`initialize_parameters` returns an empty parameter set without error; for
every `layer_spec` of length at least 2 it returns, for each layer, a
weight matrix of shape `(units_i, units_im1)` whose entries are uniform
draws lying in `[-1/sqrt(units_i), 1/sqrt(units_i)]`, and an all-zeros
bias of shape `(units_i, 1)`. -/
theorem c9_initialize_parameters_shapes (u : ℕ → ℕ → ℕ → ℝ) (dims : List ℕ)
    (hU : ∀ a r c, 0 ≤ u a r c ∧ u a r c < 1) :
    (dims.length < 2 → initialize_parameters u dims = some []) ∧
    initialize_parameters u dims =
      some (((List.range (dims.length - 1)).map (· + 1)).map
        (fun i => (mkW u dims i, mkB dims i))) ∧
    ((((List.range (dims.length - 1)).map (· + 1)).map
      (fun i => (mkW u dims i, mkB dims i))).length = dims.length - 1) ∧
    ∀ k, k < dims.length - 1 →
      (((((List.range (dims.length - 1)).map (· + 1)).map
          (fun i => (mkW u dims i, mkB dims i))).getD k (dfltM, dfltM)).1.rows =
            dims.getD (k + 1) 0 ∧
       ((((List.range (dims.length - 1)).map (· + 1)).map
          (fun i => (mkW u dims i, mkB dims i))).getD k (dfltM, dfltM)).1.cols =
            dims.getD k 0 ∧
       ((((List.range (dims.length - 1)).map (· + 1)).map
          (fun i => (mkW u dims i, mkB dims i))).getD k (dfltM, dfltM)).2.rows =
            dims.getD (k + 1) 0 ∧
       ((((List.range (dims.length - 1)).map (· + 1)).map
          (fun i => (mkW u dims i, mkB dims i))).getD k (dfltM, dfltM)).2.cols = 1) ∧
      (∀ r c, ((((List.range (dims.length - 1)).map (· + 1)).map
          (fun i => (mkW u dims i, mkB dims i))).getD k (dfltM, dfltM)).1.entry r c ∈
        Set.Icc (-(1 / Real.sqrt (dims.getD (k + 1) 0))) (1 / Real.sqrt (dims.getD (k + 1) 0))) ∧
      (∀ r c, ((((List.range (dims.length - 1)).map (· + 1)).map
          (fun i => (mkW u dims i, mkB dims i))).getD k (dfltM, dfltM)).2.entry r c = 0) := by
  refine ⟨?_, ?_, by simp, ?_⟩
  · intro hlt
    rw [initialize_parameters, initLoop_always]
    have h0 : dims.length - 1 = 0 := by omega
    rw [h0]
    rfl
  · rw [initialize_parameters, initLoop_always]
  · intro k hk
    have hget : (((List.range (dims.length - 1)).map (· + 1)).map
        (fun i => (mkW u dims i, mkB dims i))).getD k (dfltM, dfltM) =
        (mkW u dims (k + 1), mkB dims (k + 1)) := by
      rw [List.map_map]
      exact range_map_getD _ _ k _ hk
    rw [hget]
    refine ⟨⟨rfl, rfl, rfl, rfl⟩, ?_, fun r c => rfl⟩
    intro r c
    have hs : (0 : ℝ) ≤ 1 / Real.sqrt (dims.getD (k + 1) 0) :=
      div_nonneg zero_le_one (Real.sqrt_nonneg _)
    have hu := hU (k + 1) r c
    have hw : (mkW u dims (k + 1)).entry r c =
        -(1 / Real.sqrt (dims.getD (k + 1) 0)) +
          u (k + 1) r c * (1 / Real.sqrt (dims.getD (k + 1) 0) -
            -(1 / Real.sqrt (dims.getD (k + 1) 0))) := rfl
    rw [hw]
    constructor
    · nlinarith [mul_nonneg hu.1
        (by linarith : (0 : ℝ) ≤ 1 / Real.sqrt (dims.getD (k + 1) 0) -
          -(1 / Real.sqrt (dims.getD (k + 1) 0)))]
    · have hb := mul_le_of_le_one_left
        (by linarith : (0 : ℝ) ≤ 1 / Real.sqrt (dims.getD (k + 1) 0) -
          -(1 / Real.sqrt (dims.getD (k + 1) 0))) (le_of_lt hu.2)
      linarith

/-- Witness for C9 at the two-entry layer spec `[3, 2]` and the constant
zero sample stream. -/
theorem c9_initialize_parameters_witness :
    initialize_parameters (fun _ _ _ => 0) [3, 2] =
      some (((List.range (([3, 2] : List ℕ).length - 1)).map (· + 1)).map
        (fun i => (mkW (fun _ _ _ => 0) [3, 2] i, mkB [3, 2] i))) ∧
    ((((List.range (([3, 2] : List ℕ).length - 1)).map (· + 1)).map
      (fun i => (mkW (fun _ _ _ => 0) [3, 2] i, mkB [3, 2] i))).getD 0
        (dfltM, dfltM)).1.rows = ([3, 2] : List ℕ).getD 1 0 ∧
    ((((List.range (([3, 2] : List ℕ).length - 1)).map (· + 1)).map
      (fun i => (mkW (fun _ _ _ => 0) [3, 2] i, mkB [3, 2] i))).getD 0
        (dfltM, dfltM)).1.entry 0 0 ∈
      Set.Icc (-(1 / Real.sqrt (([3, 2] : List ℕ).getD 1 0)))
        (1 / Real.sqrt (([3, 2] : List ℕ).getD 1 0)) ∧
    ((((List.range (([3, 2] : List ℕ).length - 1)).map (· + 1)).map
      (fun i => (mkW (fun _ _ _ => 0) [3, 2] i, mkB [3, 2] i))).getD 0
        (dfltM, dfltM)).2.entry 0 0 = 0 := by
  have h := c9_initialize_parameters_shapes (fun _ _ _ => 0) [3, 2]
    (fun _ _ _ => ⟨le_refl 0, by norm_num⟩)
  exact ⟨h.2.1, (h.2.2.2 0 (by norm_num)).1.1, (h.2.2.2 0 (by norm_num)).2.1 0 0,
    (h.2.2.2 0 (by norm_num)).2.2 0 0⟩

/-- C4 counterexample: against a one-hot label matrix with
`k = 2·10^10` classes and one sample, the uniform prediction `1/k` falls
below the clip floor `1e-10`, so the cost is `-log(1e-10) = log(10^10)`
and not `log k` as the claim states for every `k`. -/
theorem c4_uniform_clip_counterexample :
    (∑ i in Finset.range (2 * 10 ^ 10),
      ((⟨2 * 10 ^ 10, 1, fun i _ => if i = 0 then 1 else 0⟩ : M)).entry i 0) = 1 ∧
    compute_cost (uniformM (2 * 10 ^ 10) 1)
        ⟨2 * 10 ^ 10, 1, fun i _ => if i = 0 then 1 else 0⟩ ≠
      Real.log ((2 * 10 ^ 10 : ℕ) : ℝ) := by
  have hsum : (∑ i in Finset.range (2 * 10 ^ 10),
      ((⟨2 * 10 ^ 10, 1, fun i _ => if i = 0 then 1 else 0⟩ : M)).entry i 0) = 1 := by
    simp only []
    rw [Finset.sum_ite_eq' (Finset.range (2 * 10 ^ 10)) 0 (fun _ => (1 : ℝ))]
    rw [if_pos (Finset.mem_range.mpr (by norm_num))]
  refine ⟨hsum, ?_⟩
  have hclip : npclip (((2 * 10 ^ 10 : ℕ) : ℝ))⁻¹ 1e-10 (1 - 1e-10) = 1e-10 := by
    rw [npclip, max_eq_right (by push_cast; rw [inv_le (by norm_num) (by norm_num)]; norm_num),
      min_eq_left (by norm_num)]
  have hcost : compute_cost (uniformM (2 * 10 ^ 10) 1)
      ⟨2 * 10 ^ 10, 1, fun i _ => if i = 0 then 1 else 0⟩ = -Real.log 1e-10 := by
    rw [compute_cost]
    simp only [uniformM]
    rw [Finset.sum_congr rfl (fun i _ => Finset.sum_range_one
      (f := fun j => ((⟨2 * 10 ^ 10, 1, fun i _ => if i = 0 then 1 else 0⟩ : M)).entry i j *
        Real.log (npclip (((2 * 10 ^ 10 : ℕ) : ℝ))⁻¹ 1e-10 (1 - 1e-10))))]
    rw [hclip]
    simp only []
    rw [show (∑ i in Finset.range (2 * 10 ^ 10),
        (if i = 0 then (1 : ℝ) else 0) * Real.log 1e-10) =
      ∑ i in Finset.range (2 * 10 ^ 10),
        (if i = 0 then Real.log 1e-10 else 0) from
      Finset.sum_congr rfl (fun i _ => by by_cases h : i = 0 <;> simp [h])]
    rw [Finset.sum_ite_eq' (Finset.range (2 * 10 ^ 10)) 0 (fun _ => Real.log 1e-10)]
    rw [if_pos (Finset.mem_range.mpr (by norm_num))]
    push_cast
    ring
  rw [hcost]
  have hlog : -Real.log 1e-10 = Real.log 1e10 := by
    rw [show (1e-10 : ℝ) = (1e10 : ℝ)⁻¹ by norm_num, Real.log_inv]
    ring
  rw [hlog]
  exact ne_of_lt (Real.log_lt_log (by norm_num) (by push_cast; norm_num))

/-- C4 amended: `compute_cost` returns
`-(1/m)·Σ Y ⊙ log(clip(AL, 1e-10, 1 - 1e-10))`; against a one-hot `Y`
with `k` classes where `2 ≤ k` and `k ≤ 10^10` (so the clip leaves `1/k`
unchanged) the uniform prediction costs exactly `log k`; and on `AL = Y`
the cost is within `[0, 1e-9]` (the `1e-10` clip floor keeps it slightly
above 0). -/
theorem c4_compute_cost (AL Y : M)
    (h2 : 2 ≤ Y.rows) (hub : ((Y.rows : ℕ) : ℝ) ≤ 10 ^ 10) (hm : 1 ≤ Y.cols)
    (h01 : ∀ i j, i < Y.rows → j < Y.cols → Y.entry i j = 0 ∨ Y.entry i j = 1)
    (hsum : ∀ j, j < Y.cols → ∑ i in Finset.range Y.rows, Y.entry i j = 1) :
    compute_cost AL Y =
      -(1 / (Y.cols : ℝ)) * ∑ i in Finset.range Y.rows, ∑ j in Finset.range Y.cols,
        Y.entry i j * Real.log (min (max (AL.entry i j) 1e-10) (1 - 1e-10)) ∧
    compute_cost (uniformM Y.rows Y.cols) Y = Real.log ((Y.rows : ℕ) : ℝ) ∧
    0 ≤ compute_cost Y Y ∧ compute_cost Y Y ≤ 1e-9 := by
  have hcols : ((Y.cols : ℕ) : ℝ) ≠ 0 := by
    have : (0 : ℝ) < ((Y.cols : ℕ) : ℝ) := by exact_mod_cast Nat.lt_of_lt_of_le Nat.zero_lt_one hm
    linarith
  have hswap : ∀ c : ℝ,
      (∑ i in Finset.range Y.rows, ∑ j in Finset.range Y.cols, Y.entry i j * c) =
        ((Y.cols : ℕ) : ℝ) * c := by
    intro c
    rw [Finset.sum_comm]
    rw [Finset.sum_congr rfl (fun j hj => by
      rw [← Finset.sum_mul, hsum j (Finset.mem_range.mp hj), one_mul])]
    rw [Finset.sum_const, Finset.card_range, nsmul_eq_mul]
  refine ⟨rfl, ?_, ?_⟩
  · have hrows : (0 : ℝ) < ((Y.rows : ℕ) : ℝ) := by
      exact_mod_cast Nat.lt_of_lt_of_le Nat.zero_lt_one (le_trans (by norm_num) h2)
    have hclipu : npclip (((Y.rows : ℕ) : ℝ))⁻¹ 1e-10 (1 - 1e-10) = ((Y.rows : ℕ) : ℝ)⁻¹ := by
      have hlow : (1e-10 : ℝ) ≤ (((Y.rows : ℕ) : ℝ))⁻¹ := by
        have h1 : ((10 : ℝ) ^ 10)⁻¹ ≤ (((Y.rows : ℕ) : ℝ))⁻¹ := inv_le_inv_of_le hrows hub
        calc (1e-10 : ℝ) = ((10 : ℝ) ^ 10)⁻¹ := by norm_num
          _ ≤ _ := h1
      have hhigh : (((Y.rows : ℕ) : ℝ))⁻¹ ≤ 1 - 1e-10 := by
        have h2r : (2 : ℝ) ≤ ((Y.rows : ℕ) : ℝ) := by exact_mod_cast h2
        have h1 : (((Y.rows : ℕ) : ℝ))⁻¹ ≤ (2 : ℝ)⁻¹ := inv_le_inv_of_le (by norm_num) h2r
        calc (((Y.rows : ℕ) : ℝ))⁻¹ ≤ (2 : ℝ)⁻¹ := h1
          _ ≤ 1 - 1e-10 := by norm_num
      rw [npclip, max_eq_left hlow, min_eq_left hhigh]
    rw [compute_cost]
    simp only [uniformM]
    rw [Finset.sum_congr rfl (fun i _ => Finset.sum_congr rfl (fun j _ => by rw [hclipu]))]
    rw [hswap, Real.log_inv]
    field_simp
  · have hpt : ∀ i j, i < Y.rows → j < Y.cols →
        Y.entry i j * Real.log (npclip (Y.entry i j) 1e-10 (1 - 1e-10)) =
          Y.entry i j * Real.log (1 - 1e-10) := by
      intro i j hi hj
      rcases h01 i j hi hj with h | h
      · rw [h, zero_mul, zero_mul]
      · rw [h]
        have : npclip (1 : ℝ) 1e-10 (1 - 1e-10) = 1 - 1e-10 := by
          rw [npclip, max_eq_left (by norm_num), min_eq_right (by norm_num)]
        rw [this]
    have hval : compute_cost Y Y = -Real.log (1 - 1e-10) := by
      rw [compute_cost]
      rw [Finset.sum_congr rfl (fun i hi => Finset.sum_congr rfl (fun j hj =>
        hpt i j (Finset.mem_range.mp hi) (Finset.mem_range.mp hj)))]
      rw [hswap]
      field_simp
      ring
    have hneg : Real.log (1 - 1e-10) ≤ 0 := Real.log_nonpos (by norm_num) (by norm_num)
    have hupper : -Real.log (1 - 1e-10) ≤ 1e-9 := by
      have h1 : Real.log (((1 - 1e-10 : ℝ))⁻¹) ≤ ((1 - 1e-10 : ℝ))⁻¹ - 1 :=
        Real.log_le_sub_one_of_pos (by norm_num)
      rw [Real.log_inv] at h1
      have h2 : ((1 - 1e-10 : ℝ))⁻¹ ≤ 1 + 1e-9 := by norm_num
      linarith
    rw [hval]
    exact ⟨by linarith, hupper⟩

/-- Witness for C4 at the 2-class one-hot label matrix with one sample. -/
theorem c4_compute_cost_witness :
    compute_cost (uniformM (2 : ℕ) 1) ⟨2, 1, fun i _ => if i = 0 then 1 else 0⟩ =
      Real.log (((2 : ℕ) : ℝ)) ∧
    0 ≤ compute_cost ⟨2, 1, fun i _ => if i = 0 then 1 else 0⟩
        ⟨2, 1, fun i _ => if i = 0 then 1 else 0⟩ ∧
      compute_cost ⟨2, 1, fun i _ => if i = 0 then 1 else 0⟩
        ⟨2, 1, fun i _ => if i = 0 then 1 else 0⟩ ≤ 1e-9 := by
  have h := c4_compute_cost ⟨2, 1, fun i _ => if i = 0 then 1 else 0⟩
    ⟨2, 1, fun i _ => if i = 0 then 1 else 0⟩
    (by norm_num) (by norm_num) (by norm_num)
    (fun i j _ _ => by by_cases hi : i = 0 <;> simp [hi])
    (fun j _ => by simp [Finset.sum_range_succ])
  exact ⟨h.2.1, h.2.2⟩

lemma batchnorm_entry (A : M) (i j : ℕ) :
    (batchnorm A).entry i j = (A.entry i j - rowMean A i) / (rowStd A i + 1e-4) := rfl

lemma batchnorm_rows (A : M) : (batchnorm A).rows = A.rows := rfl

lemma batchnorm_cols (A : M) : (batchnorm A).cols = A.cols := rfl

lemma rowStd_nonneg (A : M) (i : ℕ) : 0 ≤ rowStd A i := Real.sqrt_nonneg _

lemma rowStd_add_eps_pos (A : M) (i : ℕ) : (0 : ℝ) < rowStd A i + 1e-4 := by
  have h := rowStd_nonneg A i
  have he : (0 : ℝ) < 1e-4 := by norm_num
  linarith

lemma rowMean_batchnorm (A : M) (i : ℕ) (hm : 1 ≤ A.cols) :
    rowMean (batchnorm A) i = 0 := by
  have hc : ((A.cols : ℕ) : ℝ) ≠ 0 := by
    have : (0 : ℝ) < ((A.cols : ℕ) : ℝ) := by
      exact_mod_cast Nat.lt_of_lt_of_le Nat.zero_lt_one hm
    linarith
  rw [rowMean]
  simp only [batchnorm_cols, batchnorm_entry]
  rw [← Finset.sum_div, Finset.sum_sub_distrib, Finset.sum_const, Finset.card_range,
    nsmul_eq_mul]
  rw [rowMean, mul_div_cancel₀ _ hc, sub_self, zero_div, zero_div]

lemma rowStd_batchnorm (A : M) (i : ℕ) (hm : 1 ≤ A.cols) :
    rowStd (batchnorm A) i = rowStd A i / (rowStd A i + 1e-4) := by
  have hd := rowStd_add_eps_pos A i
  have hμ := rowMean_batchnorm A i hm
  rw [rowStd]
  simp only [batchnorm_cols, batchnorm_entry, hμ, sub_zero]
  rw [Finset.sum_congr rfl (fun j _ =>
    div_pow (A.entry i j - rowMean A i) (rowStd A i + 1e-4) 2)]
  rw [← Finset.sum_div, div_div,
    mul_comm ((rowStd A i + 1e-4) ^ 2) ((A.cols : ℕ) : ℝ), ← div_div]
  rw [Real.sqrt_div (by positivity)]
  rw [Real.sqrt_sq (le_of_lt hd)]
  rfl

/-- C7 counterexample: a constant activation row has population standard
deviation 0, so after `batchnorm` the row is all zeros and its population
standard deviation is 0, not 1 within the `1e-4` tolerance. -/
theorem c7_constant_row_counterexample :
    rowStd (batchnorm ⟨1, 2, fun _ _ => 1⟩) 0 = 0 ∧
    ¬|rowStd (batchnorm ⟨1, 2, fun _ _ => 1⟩) 0 - 1| ≤ 1e-4 := by
  have hstd1 : rowStd (⟨1, 2, fun _ _ => 1⟩ : M) 0 = 0 := by
    rw [rowStd]
    simp only []
    rw [show (∑ j in Finset.range 2,
        (((⟨1, 2, fun _ _ => 1⟩ : M)).entry 0 j -
          rowMean ⟨1, 2, fun _ _ => 1⟩ 0) ^ 2) = 0 from by
      rw [show rowMean (⟨1, 2, fun _ _ => 1⟩ : M) 0 = 1 from by
        rw [rowMean]; norm_num [Finset.sum_range_succ]]
      simp [Finset.sum_range_succ]]
    rw [zero_div, Real.sqrt_zero]
  have hmain : rowStd (batchnorm ⟨1, 2, fun _ _ => 1⟩) 0 = 0 := by
    rw [rowStd_batchnorm ⟨1, 2, fun _ _ => 1⟩ 0 (by norm_num), hstd1, zero_div]
  refine ⟨hmain, ?_⟩
  rw [hmain]
  rw [show |(0 : ℝ) - 1| = 1 from by rw [zero_sub, abs_neg, abs_one]]
  norm_num

/-- C7 amended: with batch normalization enabled the forward pass applies
`batchnorm` to the output of every relu layer and never to the final
softmax layer; `batchnorm` maps each feature row to
`(row - population mean) / (population std + 1e-4)` across the batch
dimension, the same formula whether training or evaluating; consequently
every output row has population mean exactly 0, while its population
standard deviation equals `σ/(σ + 1e-4)` where `σ` is the row's original
population standard deviation (close to 1 only when `σ` dominates the
epsilon, not within the epsilon tolerance in general). -/
theorem c7_batchnorm (A X : M) (hs : List (M × M)) (p : M × M)
    (hhs : hs ≠ []) (hm : 1 ≤ A.cols) :
    (∀ (B : M) (i j : ℕ), (batchnorm B).entry i j =
      (B.entry i j - rowMean B i) / (rowStd B i + 1e-4)) ∧
    (∀ (B : M) (q : M × M) (rest : List (M × M)),
      reluChain true B (q :: rest) =
        ((reluChain true (batchnorm (relu (linear_forward B q.1 q.2).1)) rest).1,
         ((B, q.1, q.2), (linear_forward B q.1 q.2).1) ::
           (reluChain true (batchnorm (relu (linear_forward B q.1 q.2).1)) rest).2)) ∧
    (L_model_forward X (hs ++ [p]) true =
      some ((softmax (linear_forward (reluChain true X hs).1 p.1 p.2).1),
        (reluChain true X hs).2 ++
          [(((reluChain true X hs).1, p.1, p.2),
            (linear_forward (reluChain true X hs).1 p.1 p.2).1)])) ∧
    (∀ i, rowMean (batchnorm A) i = 0) ∧
    (∀ i, rowStd (batchnorm A) i = rowStd A i / (rowStd A i + 1e-4)) := by
  refine ⟨fun B i j => rfl, fun B q rest => rfl, ?_,
    fun i => rowMean_batchnorm A i hm, fun i => rowStd_batchnorm A i hm⟩
  have hlen : ¬(hs ++ [p]).length < 2 := by
    have := List.length_pos.mpr hhs
    simp only [List.length_append, List.length_cons, List.length_nil]
    omega
  rw [L_model_forward, if_neg hlen, List.dropLast_concat, List.getLastD_concat]
  rfl

/-- Witness for C7 on a concrete 1-by-2 activation matrix and a one-hidden-
layer network shape. -/
theorem c7_batchnorm_witness :
    rowMean (batchnorm ⟨1, 2, fun _ j => (j : ℝ)⟩) 0 = 0 ∧
    rowStd (batchnorm ⟨1, 2, fun _ j => (j : ℝ)⟩) 0 =
      rowStd ⟨1, 2, fun _ j => (j : ℝ)⟩ 0 /
        (rowStd ⟨1, 2, fun _ j => (j : ℝ)⟩ 0 + 1e-4) ∧
    L_model_forward dfltM ([(dfltM, dfltM)] ++ [(dfltM, dfltM)]) true =
      some ((softmax (linear_forward (reluChain true dfltM [(dfltM, dfltM)]).1
          dfltM dfltM).1),
        (reluChain true dfltM [(dfltM, dfltM)]).2 ++
          [(((reluChain true dfltM [(dfltM, dfltM)]).1, dfltM, dfltM),
            (linear_forward (reluChain true dfltM [(dfltM, dfltM)]).1 dfltM dfltM).1)]) := by
  have h := c7_batchnorm ⟨1, 2, fun _ j => (j : ℝ)⟩ dfltM [(dfltM, dfltM)] (dfltM, dfltM)
    (by simp) (by norm_num)
  exact ⟨h.2.2.2.1 0, h.2.2.2.2 0, h.2.2.1⟩

lemma reluChain_cache (bn : Bool) :
    ∀ (hidden : List (M × M)) (X : M) (k : ℕ), k < hidden.length →
      (reluChain bn X hidden).2.getD k ((dfltM, dfltM, dfltM), dfltM) =
        ((layerInput bn X hidden k,
          (hidden.getD k (dfltM, dfltM)).1, (hidden.getD k (dfltM, dfltM)).2),
         (linear_forward (layerInput bn X hidden k)
            (hidden.getD k (dfltM, dfltM)).1 (hidden.getD k (dfltM, dfltM)).2).1) := by
  intro hidden
  induction hidden with
  | nil => intro X k hk; simp at hk
  | cons q rest ih =>
      intro X k hk
      cases k with
      | zero => rfl
      | succ k =>
          have hk2 : k < rest.length := by simpa using hk
          have hstep : (reluChain bn X (q :: rest)).2.getD (k + 1)
              ((dfltM, dfltM, dfltM), dfltM) =
              (reluChain bn
                (if bn then batchnorm (relu (linear_forward X q.1 q.2).1)
                 else relu (linear_forward X q.1 q.2).1) rest).2.getD k
                ((dfltM, dfltM, dfltM), dfltM) := rfl
          have hinp : layerInput bn X (q :: rest) (k + 1) =
              layerInput bn
                (if bn then batchnorm (relu (linear_forward X q.1 q.2).1)
                 else relu (linear_forward X q.1 q.2).1) rest k := rfl
          rw [hstep, ih _ k hk2, hinp]
          rfl

/-- C10: the backward pass never differentiates through batch
normalization: when batch normalization is enabled, each hidden-layer
cache built by the forward pass stores the raw pre-activation — the layer
input times the weights plus the bias, taken before any normalization —
and `L_model_backward` (which takes no batch-norm flag at all) applies
the plain relu/linear backward formulas to exactly those cached values,
shown here in closed form on a two-layer network: the relu mask comes
from the raw `Z1` and no batch-norm derivative term appears anywhere in
the gradient chain. -/
theorem c10_backward_ignores_batchnorm (X : M) (ps : List (M × M)) (k : ℕ)
    (hk : k < ps.dropLast.length) (W1 b1 W2 b2 AL Y : M) :
    ((reluChain true X ps.dropLast).2.getD k ((dfltM, dfltM, dfltM), dfltM) =
      ((layerInput true X ps.dropLast k,
        (ps.dropLast.getD k (dfltM, dfltM)).1, (ps.dropLast.getD k (dfltM, dfltM)).2),
       (linear_forward (layerInput true X ps.dropLast k)
          (ps.dropLast.getD k (dfltM, dfltM)).1
          (ps.dropLast.getD k (dfltM, dfltM)).2).1)) ∧
    (L_model_forward X [(W1, b1), (W2, b2)] true =
      some (softmax (linear_forward (batchnorm (relu (linear_forward X W1 b1).1)) W2 b2).1,
        [((X, W1, b1), (linear_forward X W1 b1).1),
         ((batchnorm (relu (linear_forward X W1 b1).1), W2, b2),
          (linear_forward (batchnorm (relu (linear_forward X W1 b1).1)) W2 b2).1)])) ∧
    (∀ (Z1 Z2 : M) (lc1 lc2 : M × M × M),
      L_model_backward AL Y [(lc1, Z1), (lc2, Z2)] =
        [linear_backward
           (relu_backward (linear_backward (softmax_backward (initGrad Y AL) Z2) lc2).1 Z1)
           lc1,
         linear_backward (softmax_backward (initGrad Y AL) Z2) lc2]) := by
  refine ⟨reluChain_cache true ps.dropLast X k hk, ?_, fun Z1 Z2 lc1 lc2 => rfl⟩
  rw [L_model_forward, if_neg (by norm_num)]
  rfl

/-- Witness for C10 on a two-layer all-default network. -/
theorem c10_backward_ignores_batchnorm_witness :
    (reluChain true dfltM ([(dfltM, dfltM), (dfltM, dfltM)] : List (M × M)).dropLast).2.getD 0
        ((dfltM, dfltM, dfltM), dfltM) =
      ((layerInput true dfltM ([(dfltM, dfltM), (dfltM, dfltM)] : List (M × M)).dropLast 0,
        (([(dfltM, dfltM), (dfltM, dfltM)] : List (M × M)).dropLast.getD 0 (dfltM, dfltM)).1,
        (([(dfltM, dfltM), (dfltM, dfltM)] : List (M × M)).dropLast.getD 0 (dfltM, dfltM)).2),
       (linear_forward
          (layerInput true dfltM ([(dfltM, dfltM), (dfltM, dfltM)] : List (M × M)).dropLast 0)
          (([(dfltM, dfltM), (dfltM, dfltM)] : List (M × M)).dropLast.getD 0 (dfltM, dfltM)).1
          (([(dfltM, dfltM), (dfltM, dfltM)] : List (M × M)).dropLast.getD 0
            (dfltM, dfltM)).2).1) :=
  (c10_backward_ignores_batchnorm dfltM [(dfltM, dfltM), (dfltM, dfltM)] 0
    (by simp) dfltM dfltM dfltM dfltM dfltM dfltM).1

end NumpyNN
